import Mathlib

/-!
Verification of the cam2mjpeg frame-extraction-and-broadcast engine.

The development shallowly embeds the Go sources (`main.go`, `mjpeg.go`):
bytes are `Nat`, byte buffers are `List Nat`, the subscriber registry is an
association list, and the per-connection session loop is a function over an
explicit event list.  Machine-level details that the claims do not touch
(the HTTP library, ffmpeg spawning, logging) are left out; everything the
claims mention is translated from the source.
-/

namespace Cam2MJPEG

/-- `beginOfJPEG = []byte{0xff, 0xd8}` from main.go. -/
def beginOfJPEG : List Nat := [0xff, 0xd8]

/-- `endOfJPEG = []byte{0xff, 0xd9}` from main.go. -/
def endOfJPEG : List Nat := [0xff, 0xd9]

/-- `const maxBacklog = 5` from main.go. -/
def maxBacklog : Nat := 5

/-- Capacity of a subscriber's channel: `make(chan []byte, 10)` in
`handle` and `handleSnapshot`. -/
def chanCap : Nat := 10

/-- `bytes.Index(buf[br:bw], endOfJPEG)`: index of the first occurrence of
the two-byte end-of-image marker `FF D9`, `none` when absent. -/
def findEOJ : List Nat → Option Nat
  | [] => none
  | [_] => none
  | a :: b :: rest =>
      if a = 0xff ∧ b = 0xd9 then some 0
      else (findEOJ (b :: rest)).map (· + 1)

/-- The validity check from the reader loop:
`bytes.HasPrefix(img, beginOfJPEG) && bytes.HasSuffix(img, endOfJPEG)`. -/
def isJPEGCandidate (img : List Nat) : Bool :=
  beginOfJPEG.isPrefixOf img && endOfJPEG.isSuffixOf img

theorem findEOJ_some_le {l : List Nat} {e : Nat} (h : findEOJ l = some e) :
    e + 2 ≤ l.length := by
  induction l generalizing e with
  | nil => simp [findEOJ] at h
  | cons a t ih =>
    cases t with
    | nil => simp [findEOJ] at h
    | cons b r =>
      rw [findEOJ] at h
      split at h
      · cases h
        simp
      · cases he : findEOJ (b :: r) with
        | none => rw [he] at h; simp at h
        | some e' =>
          rw [he] at h
          simp at h
          subst h
          have := ih he
          simpa [Nat.succ_le_succ_iff] using Nat.succ_le_succ this

/-- Result of one pass of the inner extraction loop: either the loop ran
until `bytes.Index` failed, returning the frames sent in order and the
unconsumed window the slide will keep, or `make` was handed a negative
length and the process died by runtime panic after sending `frames`. -/
inductive PassResult where
  | ok (frames : List (List Nat)) (leftover : List Nat)
  | panicked (frames : List (List Nat))
  deriving DecidableEq

/-- The frames a pass handed to `go sendImage`, on either outcome. -/
def PassResult.frames : PassResult → List (List Nat)
  | .ok fs _ => fs
  | .panicked fs => fs

/-- The inner extraction loop of the reader (main.go):

    for eoj := bytes.Index(buf[br:bw], endOfJPEG); eoj >= 0; ...
        eoj += len(endOfJPEG)
        img := make([]byte, eoj-br)
        copy(img, buf[br:br+eoj])
        br += eoj
        if !bytes.HasPrefix(img, beginOfJPEG) || !bytes.HasSuffix(img, endOfJPEG)
            continue (skip invalid)
        go sendImage(img)

`w` is the current window `buf[br:bw]` and `br` the absolute cursor of
this pass (0 on entry, right after the slide).  `eoj` after the `+=` is
`e + 2`, an index relative to the window, while `br` is absolute: the
allocation length `eoj-br` equals the span length only when `br = 0`.
At `br > 0` the copy is truncated — `copy` fills `min(eoj-br, eoj)` =
`eoj-br` bytes of `buf[br:br+eoj]`, so `img = w.take (e + 2 - br)` —
and when `eoj < br` the `make` receives a negative length, a runtime
panic that kills the process.  The cursor advance `br += eoj` and the
copy's source span are correct; only the allocation length mixes the
absolute cursor in. -/
def extractPass (w : List Nat) (br : Nat) : PassResult :=
  match h : findEOJ w with
  | none => .ok [] w
  | some e =>
      if e + 2 < br then .panicked []
      else
        let img := w.take (e + 2 - br)
        match extractPass (w.drop (e + 2)) (br + (e + 2)) with
        | .ok fs left => .ok (if isJPEGCandidate img then img :: fs else fs) left
        | .panicked fs => .panicked (if isJPEGCandidate img then img :: fs else fs)
termination_by w.length
decreasing_by
  have hle := findEOJ_some_le h
  simp only [List.length_drop]
  omega

/-- The candidate slices `img` built by one pass of the same loop, in
order, whether or not they pass the validation gate: every
`img := make([]byte, eoj-br); copy(img, buf[br:br+eoj])` is recorded,
and the loop stops where `extractPass` does (no candidate is built on
the panic iteration, since `make` dies first). -/
def passCandidates (w : List Nat) (br : Nat) : List (List Nat) :=
  match h : findEOJ w with
  | none => []
  | some e =>
      if e + 2 < br then []
      else w.take (e + 2 - br) :: passCandidates (w.drop (e + 2)) (br + (e + 2))
termination_by w.length
decreasing_by
  have hle := findEOJ_some_le h
  simp only [List.length_drop]
  omega

/-- Cumulative state of the outer reader loop: frames handed to the hub
so far, the unconsumed window carried to the next pass (the slide keeps
`buf[br:bw]` unchanged, so the window itself is the state), and whether
the process has died of the negative-`make` panic. -/
structure ReaderOut where
  frames : List (List Nat)
  leftover : List Nat
  panicked : Bool
  deriving DecidableEq

/-- One outer-loop iteration (main.go), entered per successful
`out.Read`: slide, append the chunk just read, run the inner loop with
the cursor reset to 0.  After a panic the process is dead and reads no
further chunks.  The fixed 10 MiB backing array is modelled as unbounded
storage, per the sizing contract that a frame always fits. -/
def readerStep (acc : ReaderOut) (chunk : List Nat) : ReaderOut :=
  if acc.panicked then acc
  else
    match extractPass (acc.leftover ++ chunk) 0 with
    | .ok fs left => ⟨acc.frames ++ fs, left, false⟩
    | .panicked fs => ⟨acc.frames ++ fs, [], true⟩

def readerRun (chunks : List (List Nat)) : ReaderOut :=
  chunks.foldl readerStep ⟨[], [], false⟩

theorem extractPass_of_none {w : List Nat} (br : Nat) (h : findEOJ w = none) :
    extractPass w br = .ok [] w := by
  unfold extractPass
  split
  · rfl
  · rename_i e heq
    rw [h] at heq
    cases heq

theorem extractPass_of_some {w : List Nat} {e : Nat} (br : Nat)
    (h : findEOJ w = some e) :
    extractPass w br =
      (if e + 2 < br then .panicked []
      else
        match extractPass (w.drop (e + 2)) (br + (e + 2)) with
        | .ok fs left =>
            .ok (if isJPEGCandidate (w.take (e + 2 - br)) then
                  w.take (e + 2 - br) :: fs else fs) left
        | .panicked fs =>
            .panicked (if isJPEGCandidate (w.take (e + 2 - br)) then
                  w.take (e + 2 - br) :: fs else fs)) := by
  conv_lhs => rw [extractPass.eq_def]
  split
  · rename_i heq
    rw [h] at heq
    cases heq
  · rename_i e' heq
    rw [h] at heq
    injection heq with he
    subst he
    rfl

theorem passCandidates_of_none {w : List Nat} (br : Nat) (h : findEOJ w = none) :
    passCandidates w br = [] := by
  unfold passCandidates
  split
  · rfl
  · rename_i e heq
    rw [h] at heq
    cases heq

theorem passCandidates_of_some {w : List Nat} {e : Nat} (br : Nat)
    (h : findEOJ w = some e) :
    passCandidates w br =
      (if e + 2 < br then []
      else w.take (e + 2 - br)
        :: passCandidates (w.drop (e + 2)) (br + (e + 2))) := by
  conv_lhs => rw [passCandidates.eq_def]
  split
  · rename_i heq
    rw [h] at heq
    cases heq
  · rename_i e' heq
    rw [h] at heq
    injection heq with he
    subst he
    rfl

theorem extractPass_frames_of_some {w : List Nat} {e : Nat} (br : Nat)
    (h : findEOJ w = some e) (hbr : ¬ e + 2 < br) :
    (extractPass w br).frames =
      (if isJPEGCandidate (w.take (e + 2 - br)) then
        w.take (e + 2 - br)
          :: (extractPass (w.drop (e + 2)) (br + (e + 2))).frames
      else (extractPass (w.drop (e + 2)) (br + (e + 2))).frames) := by
  rw [extractPass_of_some br h, if_neg hbr]
  cases extractPass (w.drop (e + 2)) (br + (e + 2)) <;>
    by_cases hc : isJPEGCandidate (w.take (e + 2 - br)) = true <;>
      simp [PassResult.frames, hc]

/-- A candidate that fails the marker check is discarded while the cursor
still advances past it: the pass result is that of resuming right after
the consumed span. -/
theorem extractPass_discard {w : List Nat} {e : Nat} (br : Nat)
    (h : findEOJ w = some e) (hbr : ¬ e + 2 < br)
    (hc : isJPEGCandidate (w.take (e + 2 - br)) = false) :
    extractPass w br = extractPass (w.drop (e + 2)) (br + (e + 2)) := by
  rw [extractPass_of_some br h, if_neg hbr]
  cases extractPass (w.drop (e + 2)) (br + (e + 2)) <;> simp [hc]

/-- Every frame a pass hands to `go sendImage` passed the
HasPrefix/HasSuffix gate. -/
theorem mem_extractPass {w : List Nat} {br : Nat} {f : List Nat}
    (hf : f ∈ (extractPass w br).frames) : isJPEGCandidate f = true := by
  generalize hn : w.length = n
  induction n using Nat.strong_induction_on generalizing w br with
  | _ n ih =>
    cases hfind : findEOJ w with
    | none =>
      rw [extractPass_of_none br hfind] at hf
      simp [PassResult.frames] at hf
    | some e =>
      by_cases hbr : e + 2 < br
      · rw [extractPass_of_some br hfind, if_pos hbr] at hf
        simp [PassResult.frames] at hf
      · rw [extractPass_frames_of_some br hfind hbr] at hf
        have hle := findEOJ_some_le hfind
        have hlt : (w.drop (e + 2)).length < n := by
          subst hn
          simp only [List.length_drop]
          omega
        by_cases hc : isJPEGCandidate (w.take (e + 2 - br)) = true
        · rw [if_pos hc] at hf
          rcases List.mem_cons.mp hf with hEq | hmem
          · subst hEq
            exact hc
          · exact ih _ hlt hmem rfl
        · rw [if_neg hc] at hf
          exact ih _ hlt hf rfl

theorem readerStep_ok {acc : ReaderOut} {chunk : List Nat}
    {fs : List (List Nat)} {left : List Nat}
    (hp : acc.panicked = false)
    (h : extractPass (acc.leftover ++ chunk) 0 = .ok fs left) :
    readerStep acc chunk = ⟨acc.frames ++ fs, left, false⟩ := by
  unfold readerStep
  rw [if_neg (by simp [hp]), h]

theorem readerStep_panic {acc : ReaderOut} {chunk : List Nat}
    {fs : List (List Nat)}
    (hp : acc.panicked = false)
    (h : extractPass (acc.leftover ++ chunk) 0 = .panicked fs) :
    readerStep acc chunk = ⟨acc.frames ++ fs, [], true⟩ := by
  unfold readerStep
  rw [if_neg (by simp [hp]), h]

theorem mem_readerStep {acc : ReaderOut} {chunk f : List Nat}
    (hf : f ∈ (readerStep acc chunk).frames) :
    f ∈ acc.frames ∨ isJPEGCandidate f = true := by
  unfold readerStep at hf
  by_cases hp : acc.panicked
  · rw [if_pos hp] at hf
    exact Or.inl hf
  · rw [if_neg hp] at hf
    cases hrec : extractPass (acc.leftover ++ chunk) 0 with
    | ok fs left =>
      rw [hrec] at hf
      have hf' : f ∈ acc.frames ++ fs := hf
      rcases List.mem_append.mp hf' with h1 | h2
      · exact Or.inl h1
      · refine Or.inr (@mem_extractPass (acc.leftover ++ chunk) 0 f ?_)
        rw [hrec]
        exact h2
    | panicked fs =>
      rw [hrec] at hf
      have hf' : f ∈ acc.frames ++ fs := hf
      rcases List.mem_append.mp hf' with h1 | h2
      · exact Or.inl h1
      · refine Or.inr (@mem_extractPass (acc.leftover ++ chunk) 0 f ?_)
        rw [hrec]
        exact h2

theorem mem_readerRun {chunks : List (List Nat)} {f : List Nat}
    (hf : f ∈ (readerRun chunks).frames) : isJPEGCandidate f = true := by
  suffices key : ∀ (cs : List (List Nat)) (acc : ReaderOut),
      (∀ g ∈ acc.frames, isJPEGCandidate g = true) →
      ∀ g ∈ (cs.foldl readerStep acc).frames, isJPEGCandidate g = true by
    exact key chunks ⟨[], [], false⟩ (by intro g hg; simp at hg) f hf
  intro cs
  induction cs with
  | nil => intro acc hacc g hg; exact hacc g hg
  | cons c cs' ih =>
    intro acc hacc g hg
    rw [List.foldl_cons] at hg
    refine ih (readerStep acc c) ?_ g hg
    intro g' hg'
    rcases mem_readerStep hg' with h1 | h2
    · exact hacc g' h1
    · exact h2

/-- C1 (code bug): the source's own comment says "Extract as many images
as possible before next read" and the spec requires all N concatenated
frames to be emitted regardless of chunk boundaries, but the allocation
`make([]byte, eoj-br)` mixes `eoj` (an index relative to `buf[br:]`,
as its uses in `copy` and `br += eoj` confirm) with the absolute cursor
`br`: when one read window holds two complete frames, the reader emits
only the first.  The second candidate is truncated and fails the marker
check (first conjunct: frames `FF D8 FF D9` then `FF D8 00 FF D9` in
one read yield one emitted frame); when the second frame is shorter
than the first, `make` receives a negative length and the process dies
(second conjunct, `panicked = true`). -/
theorem frameReader_truncates_second_frame_in_window :
    readerRun [[0xff, 0xd8, 0xff, 0xd9, 0xff, 0xd8, 0x00, 0xff, 0xd9]]
      = ⟨[[0xff, 0xd8, 0xff, 0xd9]], [], false⟩
    ∧ readerRun [[0xff, 0xd8, 0x00, 0xff, 0xd9, 0xff, 0xd8, 0xff, 0xd9]]
      = ⟨[[0xff, 0xd8, 0x00, 0xff, 0xd9]], [], true⟩ := by
  constructor
  · have h3 : extractPass
        (List.drop (3 + 2) (List.drop (2 + 2)
          [0xff, 0xd8, 0xff, 0xd9, 0xff, 0xd8, 0x00, 0xff, 0xd9]))
        (0 + (2 + 2) + (3 + 2)) = .ok [] [] :=
      extractPass_of_none _ (by decide)
    have h2 : extractPass
        (List.drop (2 + 2) [0xff, 0xd8, 0xff, 0xd9, 0xff, 0xd8, 0x00, 0xff, 0xd9])
        (0 + (2 + 2)) = .ok [] [] := by
      rw [extractPass_of_some (0 + (2 + 2))
          (show findEOJ (List.drop (2 + 2)
            [0xff, 0xd8, 0xff, 0xd9, 0xff, 0xd8, 0x00, 0xff, 0xd9]) = some 3
          by decide),
        if_neg (by decide), h3]
      decide
    have h1 : extractPass [0xff, 0xd8, 0xff, 0xd9, 0xff, 0xd8, 0x00, 0xff, 0xd9] 0
        = .ok [[0xff, 0xd8, 0xff, 0xd9]] [] := by
      rw [extractPass_of_some 0
          (show findEOJ [0xff, 0xd8, 0xff, 0xd9, 0xff, 0xd8, 0x00, 0xff, 0xd9]
            = some 2 by decide),
        if_neg (by decide), h2]
      decide
    show readerStep ⟨[], [], false⟩ _ = _
    rw [readerStep_ok rfl h1]
    rfl
  · have p2 : extractPass
        (List.drop (3 + 2) [0xff, 0xd8, 0x00, 0xff, 0xd9, 0xff, 0xd8, 0xff, 0xd9])
        (0 + (3 + 2)) = .panicked [] := by
      rw [extractPass_of_some (0 + (3 + 2))
          (show findEOJ (List.drop (3 + 2)
            [0xff, 0xd8, 0x00, 0xff, 0xd9, 0xff, 0xd8, 0xff, 0xd9]) = some 2
          by decide),
        if_pos (by decide)]
    have p1 : extractPass [0xff, 0xd8, 0x00, 0xff, 0xd9, 0xff, 0xd8, 0xff, 0xd9] 0
        = .panicked [[0xff, 0xd8, 0x00, 0xff, 0xd9]] := by
      rw [extractPass_of_some 0
          (show findEOJ [0xff, 0xd8, 0x00, 0xff, 0xd9, 0xff, 0xd8, 0xff, 0xd9]
            = some 3 by decide),
        if_neg (by decide), p2]
      decide
    show readerStep ⟨[], [], false⟩ _ = _
    rw [readerStep_panic rfl p1]
    rfl

theorem readerRun_single :
    readerRun [[0xff, 0xd8, 0xff, 0xd9]]
      = ⟨[[0xff, 0xd8, 0xff, 0xd9]], [], false⟩ := by
  have h0 : extractPass [0xff, 0xd8, 0xff, 0xd9] 0
      = .ok [[0xff, 0xd8, 0xff, 0xd9]] [] := by
    rw [extractPass_of_some 0
        (show findEOJ [0xff, 0xd8, 0xff, 0xd9] = some 2 by decide),
      if_neg (by decide),
      extractPass_of_none (0 + (2 + 2)) (by decide)]
    decide
  show readerStep ⟨[], [], false⟩ _ = _
  rw [readerStep_ok rfl h0]
  rfl

/-- C5: every frame the Reader hands to the Hub starts with `FF D8` and
ends with `FF D9` (only candidates passing the HasPrefix/HasSuffix gate
reach `go sendImage`, on the normal and on the panic-interrupted pass
alike); a candidate that fails the gate is discarded while the cursor
still advances past its span; and a byte sequence that does not start
with `FF D8` never appears among the emitted frames. -/
theorem frames_have_markers (chunks : List (List Nat)) (f : List Nat)
    (hf : f ∈ (readerRun chunks).frames) :
    (beginOfJPEG.isPrefixOf f = true ∧ endOfJPEG.isSuffixOf f = true)
    ∧ (∀ (w : List Nat) (br e : Nat), findEOJ w = some e → ¬ e + 2 < br →
        isJPEGCandidate (w.take (e + 2 - br)) = false →
        extractPass w br = extractPass (w.drop (e + 2)) (br + (e + 2)))
    ∧ (∀ s : List Nat, beginOfJPEG.isPrefixOf s = false →
        s ∉ (readerRun chunks).frames) := by
  have hm := mem_readerRun hf
  unfold isJPEGCandidate at hm
  rw [Bool.and_eq_true] at hm
  refine ⟨hm, ?_, ?_⟩
  · intro w br e h hbr hc
    exact extractPass_discard br h hbr hc
  · intro s hs hmem
    have hm' := mem_readerRun hmem
    unfold isJPEGCandidate at hm'
    rw [Bool.and_eq_true] at hm'
    rw [hs] at hm'
    exact Bool.noConfusion hm'.1

/-- Witness for C5: a single valid frame delivered in one chunk is among
the emitted frames and carries both markers. -/
theorem frames_have_markers_witness :
    beginOfJPEG.isPrefixOf [0xff, 0xd8, 0xff, 0xd9] = true ∧
      endOfJPEG.isSuffixOf [0xff, 0xd8, 0xff, 0xd9] = true :=
  (frames_have_markers [[0xff, 0xd8, 0xff, 0xd9]] [0xff, 0xd8, 0xff, 0xd9]
    (by rw [readerRun_single]; simp)).1

/-- C10 (code bug): the claim — every extracted candidate is the shortest
span from the cursor through the first `FF D9`, carrying the marker
exactly once as its final two bytes — describes the loop's intent (its
`copy` source `buf[br:br+eoj]` is exactly that span), but the allocation
truncates: for a window holding `FF D8 FF D9` followed by
`FF D8 00 FF D9`, the second candidate built is the single byte `FF` —
not the span through the first marker — and it contains no `FF D9`
occurrence at all. -/
theorem second_candidate_contains_no_marker :
    passCandidates [0xff, 0xd8, 0xff, 0xd9, 0xff, 0xd8, 0x00, 0xff, 0xd9] 0
      = [[0xff, 0xd8, 0xff, 0xd9], [0xff]]
    ∧ findEOJ [0xff] = none := by
  refine ⟨?_, by decide⟩
  have c3 : passCandidates
      (List.drop (3 + 2) (List.drop (2 + 2)
        [0xff, 0xd8, 0xff, 0xd9, 0xff, 0xd8, 0x00, 0xff, 0xd9]))
      (0 + (2 + 2) + (3 + 2)) = [] :=
    passCandidates_of_none _ (by decide)
  have c2 : passCandidates
      (List.drop (2 + 2) [0xff, 0xd8, 0xff, 0xd9, 0xff, 0xd8, 0x00, 0xff, 0xd9])
      (0 + (2 + 2)) = [[0xff]] := by
    rw [passCandidates_of_some (0 + (2 + 2))
        (show findEOJ (List.drop (2 + 2)
          [0xff, 0xd8, 0xff, 0xd9, 0xff, 0xd8, 0x00, 0xff, 0xd9]) = some 3
        by decide),
      if_neg (by decide), c3]
    decide
  rw [passCandidates_of_some 0
      (show findEOJ [0xff, 0xd8, 0xff, 0xd9, 0xff, 0xd8, 0x00, 0xff, 0xd9]
        = some 2 by decide),
    if_neg (by decide), c2]
  decide


/-- A subscriber's pending-frame queue: the buffered channel
`make(chan []byte, 10)`; the head of the list is dequeued first. -/
abbrev Queue := List (List Nat)

/-- The hub's registry `requester map[string]chan []byte`, modelled as an
association list in the order `sendImage` visits the entries. -/
abbrev Registry := List (String × Queue)

/-- `sendImage` from main.go: under the read lock, return unchanged when
no requester is registered; otherwise visit every requester and enqueue
the frame exactly when its queue currently holds fewer than `maxBacklog`
entries, leaving the queue alone otherwise. -/
def sendImage (jpg : List Nat) (requester : Registry) : Registry :=
  if requester.length = 0 then requester
  else requester.map fun c =>
    if c.2.length < maxBacklog then (c.1, c.2 ++ [jpg]) else c

/-- Execution of the per-frame dispatch tasks: the reader spawns
`go sendImage(img)` once per validated frame, and the runtime executes
those tasks in some order; `order` is the frames in task execution
order, which need not be the spawn order. -/
def publishAll (order : List (List Nat)) (reg : Registry) : Registry :=
  order.foldl (fun r jpg => sendImage jpg r) reg

/-- One iteration's outcome for the `handleMJPEG` select loop: either the
close notifier fired, or a frame arrived and rendering it either wrote
the part or failed (the two error returns of the part render collapse to
one failure event). -/
inductive SessionEvent
  | disconnect
  | frame (writeOk : Bool) (img : List Nat)
  deriving DecidableEq

/-- How the `handleMJPEG` loop ended: the close notifier, the error
budget, or still alive (with current `errC`) after the supplied events. -/
inductive SessionExit
  | clientClosed
  | tooManyErrors
  | streaming (errC : Nat)
  deriving DecidableEq

/-- The main loop of `handleMJPEG` (mjpeg.go), threading the
consecutive-error counter `errC`: a write failure increments it and kills
the connection once `errC > 5`; a successful render appends its part and
resets the counter to zero.  Returns the parts written and how the loop
ended. -/
def mjpegLoop (errC : Nat) : List SessionEvent → List (List Nat) × SessionExit
  | [] => ([], .streaming errC)
  | .disconnect :: _ => ([], .clientClosed)
  | .frame ok img :: rest =>
      if ok then
        let r := mjpegLoop 0 rest
        (img :: r.1, r.2)
      else if errC + 1 > 5 then ([], .tooManyErrors)
      else mjpegLoop (errC + 1) rest

/-- Observable actions of a connection handler, in program order. -/
inductive HOp
  | register (id : String)
  | deregister (id : String)
  | closeChan (id : String)
  | respond (status : Nat)
  | writeHeader (key value : String)
  | writePart (img : List Nat)
  | writeBody (img : List Nat)
  deriving DecidableEq

/-- `handleMJPEG` from mjpeg.go as the sequence of observable actions it
performs: the method gate answering 405, or the three response headers
followed by the parts the loop renders. -/
def handleMJPEGOps (method : String) (events : List SessionEvent) : List HOp :=
  if method ≠ "GET" then [.respond 405]
  else
    [.writeHeader "Connection" "close",
     .writeHeader "Cache-Control" "no-store, no-cache",
     .writeHeader "Content-Type" "multipart/x-mixed-replace;boundary=--boundary"]
    ++ (mjpegLoop 0 events).1.map .writePart

/-- `handle` from main.go: create the channel, register under the fresh
uuid, run `handleMJPEG`, and on any return run the deferred cleanup:
`deregisterImgChan(uid)` then `close(imgChan)`. -/
def handleTrace (uid method : String) (events : List SessionEvent) : List HOp :=
  [.register uid] ++ handleMJPEGOps method events
    ++ [.deregister uid, .closeChan uid]

/-- Effect of a handler's actions on the registry: `registerImgChan`
inserts the id with its fresh empty channel, `deregisterImgChan` deletes
the id, and every other action leaves the registry alone. -/
def applyOps (r : Registry) : List HOp → Registry
  | [] => r
  | .register id :: rest => applyOps ((id, []) :: r) rest
  | .deregister id :: rest => applyOps (r.filter fun c => c.1 ≠ id) rest
  | .closeChan _ :: rest => applyOps r rest
  | .respond _ :: rest => applyOps r rest
  | .writeHeader _ _ :: rest => applyOps r rest
  | .writePart _ :: rest => applyOps r rest
  | .writeBody _ :: rest => applyOps r rest

structure SnapshotResponse where
  status : Nat
  headers : List (String × String)
  body : List Nat
  deriving DecidableEq

/-- `handleSnapshot` from main.go: register under a fresh id, block on
`img := <-imgChan` for one frame, add the no-cache and connection-close
headers, set the image content type, and write the frame (the first
write commits status 200).  There is no method gate.  `published` lists
the frames `sendImage` executions offer this subscriber after its
registration, in execution order; the handler consumes the first frame
its queue receives, and blocks forever (`none`) when none arrives. -/
def handleSnapshot (uid method : String) (published : List (List Nat)) :
    List HOp × Option SnapshotResponse :=
  match ((publishAll published [(uid, [])]).headD (uid, [])).2.head? with
  | none => ([.register uid], none)
  | some img =>
      ([.register uid,
        .writeHeader "Cache-Control" "no-store, no-cache",
        .writeHeader "Connection" "close",
        .writeHeader "Content-Type" "image/jpeg",
        .writeBody img,
        .deregister uid, .closeChan uid],
       some ⟨200,
         [("Cache-Control", "no-store, no-cache"),
          ("Connection", "close"),
          ("Content-Type", "image/jpeg")], img⟩)

/-- C2: a single `sendImage` run enqueues the frame onto each registered
subscriber's queue iff that queue currently holds fewer than `maxBacklog`
(5) entries, drops it otherwise without touching any other subscriber,
never fills a channel past its capacity (so `c <- jpg` cannot block), and
does nothing when no subscriber is registered. -/
theorem sendImage_spec (jpg : List Nat) (reg : Registry) :
    (reg = [] → sendImage jpg reg = reg)
    ∧ (∀ i : Nat, (sendImage jpg reg)[i]? =
        (reg[i]?).map fun c =>
          if c.2.length < maxBacklog then (c.1, c.2 ++ [jpg]) else c)
    ∧ (∀ c ∈ reg, c.2.length < maxBacklog → c.2.length + 1 ≤ chanCap) := by
  refine ⟨fun h => by simp [h, sendImage], ?_, ?_⟩
  · intro i
    unfold sendImage
    by_cases h : reg.length = 0
    · have hnil : reg = [] := List.length_eq_zero.mp h
      subst hnil
      simp
    · rw [if_neg h, List.getElem?_map]
  · intro c _ hlt
    unfold maxBacklog at hlt
    unfold chanCap
    omega

/-- Witness for C2: one subscriber below the watermark receives the
frame, one sitting exactly at the watermark is skipped. -/
theorem sendImage_spec_witness :
    (sendImage [1] [("a", [[2]]), ("b", [[], [], [], [], []])])[0]?
        = some ("a", [[2], [1]])
    ∧ (sendImage [1] [("a", [[2]]), ("b", [[], [], [], [], []])])[1]?
        = some ("b", [[], [], [], [], []]) := by
  have h := (sendImage_spec [1] [("a", [[2]]), ("b", [[], [], [], [], []])]).2.1
  exact ⟨by rw [h 0]; decide, by rw [h 1]; decide⟩

/-- C3: the streaming session dies exactly when the consecutive-failure
count exceeds 5: six straight write failures end the loop with
`tooManyErrors`; five failures followed by one successful render write
that frame and continue exactly as a fresh loop (counter reset to 0); up
to five straight failures never terminate, and a failed frame is skipped,
never retried. -/
theorem session_error_threshold :
    (∀ rest : List SessionEvent,
      mjpegLoop 0 (List.replicate 6 (.frame false []) ++ rest)
        = ([], .tooManyErrors))
    ∧ (∀ (img : List Nat) (rest : List SessionEvent),
        mjpegLoop 0
            (List.replicate 5 (.frame false []) ++ .frame true img :: rest)
          = (img :: (mjpegLoop 0 rest).1, (mjpegLoop 0 rest).2))
    ∧ (∀ k : Nat, k ≤ 5 →
        mjpegLoop 0 (List.replicate k (.frame false []))
          = ([], .streaming k)) := by
  refine ⟨fun rest => rfl, fun img rest => rfl, ?_⟩
  intro k hk
  interval_cases k <;> rfl

/-- Witness for C3: six failures kill the connection, five do not. -/
theorem session_error_threshold_witness :
    mjpegLoop 0 (List.replicate 6 (.frame false [])) = ([], .tooManyErrors)
    ∧ mjpegLoop 0 (List.replicate 5 (.frame false [])) = ([], .streaming 5) :=
  ⟨by simpa using session_error_threshold.1 [],
   session_error_threshold.2.2 5 (by decide)⟩

/-- Counterexample to C9 as stated: the reader spawns one `go sendImage`
task per validated frame, and the runtime may execute the tasks out of
spawn order.  Executing the dispatch tasks of the validated sequence
`[[AA], [BB]]` in the order second-then-first fills a fresh subscriber's
queue — which never reaches the watermark — with the frames in reverse
validation order. -/
theorem dispatch_fifo_counterexample :
    ([[0xbb], [0xaa]] : List (List Nat)).Perm [[0xaa], [0xbb]]
    ∧ publishAll [[0xbb], [0xaa]] [("s", [])] = [("s", [[0xbb], [0xaa]])]
    ∧ ([("s", [[0xbb], [0xaa]])] : Registry) ≠ [("s", [[0xaa], [0xbb]])] :=
  ⟨by decide, by decide, by decide⟩

/-- C9 amended: per-subscriber delivery order equals the execution order
of the per-frame dispatch tasks, which the code leaves to the scheduler;
when the tasks run in spawn (validation) order, every subscriber whose
queue stays below the backlog watermark receives every published frame
exactly once, in publish order, appended after its pending frames. -/
theorem publish_in_order_fifo (frames : List (List Nat)) (reg : Registry)
    (i : Nat) (id : String) (q : Queue) (hent : reg[i]? = some (id, q))
    (hlow : q.length + frames.length ≤ maxBacklog) :
    (publishAll frames reg)[i]? = some (id, q ++ frames) := by
  induction frames generalizing reg q with
  | nil => simpa using hent
  | cons f fs ih =>
    have hlow' : q.length + fs.length + 1 ≤ maxBacklog := by
      rw [List.length_cons] at hlow
      omega
    have hqlt : q.length < maxBacklog := by omega
    have h1 : (sendImage f reg)[i]? = some (id, q ++ [f]) := by
      unfold sendImage
      by_cases h0 : reg.length = 0
      · have hnil : reg = [] := List.length_eq_zero.mp h0
        subst hnil
        simp at hent
      · rw [if_neg h0, List.getElem?_map, hent]
        simp [hqlt]
    have h2 := ih (sendImage f reg) (q ++ [f]) h1
      (by simp only [List.length_append, List.length_cons, List.length_nil]
          omega)
    simpa [publishAll, List.append_assoc] using h2

/-- Witness for the amended C9: two frames dispatched in spawn order land
in publish order on a subscriber whose queue stays below the watermark. -/
theorem publish_in_order_fifo_witness :
    (publishAll [[1], [2]] [("s", [[0]])])[0]? = some ("s", [[0], [1], [2]]) :=
  publish_in_order_fifo [[1], [2]] [("s", [[0]])] 0 "s" [[0]]
    (by decide) (by decide)

def touchesRegistry : HOp → Bool
  | .register _ => true
  | .deregister _ => true
  | _ => false

theorem applyOps_append (r : Registry) (l₁ l₂ : List HOp) :
    applyOps r (l₁ ++ l₂) = applyOps (applyOps r l₁) l₂ := by
  induction l₁ generalizing r with
  | nil => rfl
  | cons op rest ih =>
    cases op <;> simp only [List.cons_append, applyOps] <;> exact ih _

theorem applyOps_of_no_touch {ops : List HOp} (r : Registry)
    (h : ∀ op ∈ ops, touchesRegistry op = false) :
    applyOps r ops = r := by
  induction ops generalizing r with
  | nil => rfl
  | cons op rest ih =>
    have hop := h op (by simp)
    have hrest : ∀ op ∈ rest, touchesRegistry op = false :=
      fun o ho => h o (by simp [ho])
    cases op <;> simp only [touchesRegistry] at hop <;>
      first
        | exact (Bool.noConfusion hop)
        | simpa only [applyOps] using ih r hrest

theorem handleMJPEGOps_no_touch (method : String) (events : List SessionEvent) :
    ∀ op ∈ handleMJPEGOps method events, touchesRegistry op = false := by
  intro op hop
  unfold handleMJPEGOps at hop
  split at hop
  · simp at hop
    subst hop
    rfl
  · rcases List.mem_append.mp hop with h | h
    · simp at h
      rcases h with h | h | h <;> (subst h; rfl)
    · obtain ⟨img, _, hh⟩ := List.mem_map.mp h
      subst hh
      rfl

/-- C6: on every exit path of a streaming session — method rejection,
client disconnect, error-threshold kill, or running out of frames — the
deferred cleanup deregisters the session's id exactly once and releases
its channel last, and a registry that did not contain the id beforehand
is left exactly as it was: zero residual entries. -/
theorem handle_cleanup (uid method : String) (events : List SessionEvent)
    (r : Registry) (hfresh : ∀ c ∈ r, c.1 ≠ uid) :
    ((handleTrace uid method events).count (.deregister uid) = 1)
    ∧ ((handleTrace uid method events).getLast? = some (.closeChan uid))
    ∧ applyOps r (handleTrace uid method events) = r := by
  have hmid := handleMJPEGOps_no_touch method events
  refine ⟨?_, ?_, ?_⟩
  · unfold handleTrace
    rw [List.count_append, List.count_append]
    have h0 : (handleMJPEGOps method events).count (HOp.deregister uid) = 0 := by
      rw [List.count_eq_zero]
      intro hmem
      have := hmid _ hmem
      simp [touchesRegistry] at this
    rw [h0]
    simp [List.count_cons]
  · unfold handleTrace
    rw [List.append_assoc, List.getLast?_append, List.getLast?_append]
    rfl
  · unfold handleTrace
    rw [List.singleton_append]
    show applyOps ((uid, []) :: r)
        (handleMJPEGOps method events ++ [HOp.deregister uid, HOp.closeChan uid])
      = r
    rw [applyOps_append, applyOps_of_no_touch _ hmid]
    show applyOps (((uid, []) :: r).filter fun c => c.1 ≠ uid) [HOp.closeChan uid] = r
    have hfilter : (((uid, []) :: r).filter fun c => c.1 ≠ uid) = r := by
      rw [List.filter_cons]
      have : ¬(decide ((uid, ([] : Queue)).1 ≠ uid) = true) := by simp
      rw [if_neg this]
      exact List.filter_eq_self.mpr fun c hc => by simpa using hfresh c hc
    rw [hfilter]
    rfl

/-- Witness for C6: a fresh session on an empty registry, rejected by the
method gate, leaves the registry empty with exactly one deregistration. -/
theorem handle_cleanup_witness :
    ((handleTrace "u" "POST" []).count (.deregister "u") = 1)
    ∧ ((handleTrace "u" "POST" []).getLast? = some (.closeChan "u"))
    ∧ applyOps [] (handleTrace "u" "POST" []) = [] :=
  handle_cleanup "u" "POST" [] [] (by intro c hc; simp at hc)

/-- Counterexample to C4 as stated: a POST to /snapshot.jpg is not
answered 405 — the handler has no method gate and serves the frame with
status 200 — and a POST to /mjpeg registers a subscriber before the 405
is produced (the trace begins with the registration). -/
theorem non_get_counterexample :
    ((handleSnapshot "u" "POST" [[0xff, 0xd8, 0xff, 0xd9]]).2.map (·.status)
        = some 200)
    ∧ ((handleTrace "u" "POST" []).head? = some (.register "u")) :=
  ⟨by decide, by decide⟩

/-- C4 amended: a non-GET request to /mjpeg is answered 405 Method Not
Allowed with no parts written, but only after the handler has already
registered a subscriber; the deferred cleanup removes the entry on
return.  A request to /snapshot.jpg is served identically for every
method: it has no method gate. -/
theorem non_get_handling (uid method : String) (events : List SessionEvent)
    (published : List (List Nat)) (hm : method ≠ "GET") :
    handleTrace uid method events
      = [.register uid, .respond 405, .deregister uid, .closeChan uid]
    ∧ handleSnapshot uid method published = handleSnapshot uid "GET" published := by
  constructor
  · unfold handleTrace handleMJPEGOps
    rw [if_pos hm]
    rfl
  · rfl

/-- Witness for the amended C4: the POST traces. -/
theorem non_get_handling_witness :
    handleTrace "u" "POST" []
      = [.register "u", .respond 405, .deregister "u", .closeChan "u"]
    ∧ handleSnapshot "u" "POST" [] = handleSnapshot "u" "GET" [] :=
  non_get_handling "u" "POST" [] [] (by decide)

theorem publishAll_singleton (frames : List (List Nat)) (id : String)
    (q : Queue) :
    publishAll frames [(id, q)]
      = [(id, frames.foldl
          (fun acc jpg =>
            if acc.length < maxBacklog then acc ++ [jpg] else acc) q)] := by
  induction frames generalizing q with
  | nil => rfl
  | cons f fs ih =>
    show publishAll fs (sendImage f [(id, q)]) = _
    rw [show sendImage f [(id, q)]
        = [(id, if q.length < maxBacklog then q ++ [f] else q)] by
      unfold sendImage
      rw [if_neg (by simp)]
      simp only [List.map_cons, List.map_nil]
      by_cases hc : q.length < maxBacklog
      · rw [if_pos hc, if_pos hc]
      · rw [if_neg hc, if_neg hc]]
    by_cases hc : q.length < maxBacklog
    · rw [if_pos hc, ih, List.foldl_cons, if_pos hc]
    · rw [if_neg hc, ih, List.foldl_cons, if_neg hc]

theorem foldl_enqueue_head (frames : List (List Nat)) (q : Queue)
    (hq : q ≠ []) :
    (frames.foldl
        (fun acc jpg =>
          if acc.length < maxBacklog then acc ++ [jpg] else acc) q).head?
      = q.head? := by
  induction frames generalizing q with
  | nil => rfl
  | cons f fs ih =>
    rw [List.foldl_cons]
    by_cases hc : q.length < maxBacklog
    · rw [if_pos hc, ih _ (by simp [hq]), List.head?_append_of_ne_nil _ hq]
    · rw [if_neg hc, ih _ hq]

/-- C7: a snapshot request registers a subscriber, blocks for exactly one
frame, writes exactly the first frame published to it after registration
as the response body with the no-store/no-cache, connection-close and
image/jpeg headers and status 200, then deregisters and returns. -/
theorem snapshot_one_frame (uid : String) (f : List Nat)
    (rest : List (List Nat)) :
    handleSnapshot uid "GET" (f :: rest)
      = ([.register uid,
          .writeHeader "Cache-Control" "no-store, no-cache",
          .writeHeader "Connection" "close",
          .writeHeader "Content-Type" "image/jpeg",
          .writeBody f,
          .deregister uid, .closeChan uid],
         some ⟨200,
           [("Cache-Control", "no-store, no-cache"),
            ("Connection", "close"),
            ("Content-Type", "image/jpeg")], f⟩) := by
  have hq : ((publishAll (f :: rest) [(uid, [])]).headD (uid, [])).2.head?
      = some f := by
    rw [publishAll_singleton]
    rw [List.foldl_cons]
    rw [show (if ([] : Queue).length < maxBacklog then [] ++ [f] else [])
        = [f] by rfl]
    show (rest.foldl _ [f]).head? = some f
    rw [foldl_enqueue_head rest [f] (by simp)]
    rfl
  unfold handleSnapshot
  rw [hq]

/-- Byte memory for the aliasing model: Go slice contents addressed
absolutely.  The reader's backing array `buf` occupies addresses
`[0, bufCap)` and each `img := make([]byte, eoj-br)` allocation receives
a fresh region above it. -/
def Heap : Type := Nat → Nat

/-- `buf = make([]byte, 10*1024*1024)` from main.go. -/
def bufCap : Nat := 10 * 1024 * 1024

def readMem (h : Heap) (base len : Nat) : List Nat :=
  (List.range len).map fun i => h (base + i)

def writeMem (h : Heap) (base : Nat) (data : List Nat) : Heap :=
  fun a => if base ≤ a ∧ a < base + data.length then data.getD (a - base) 0 else h a

/-- State of the reader loop at memory level: the heap, the cursors
`br`/`bw` into the backing array, the next free allocation address,
whether the process has died of the negative-`make` panic, and for each
frame handed to the hub its slice descriptor together with the bytes it
held at extraction time. -/
structure ReaderState where
  heap : Heap
  br : Nat
  bw : Nat
  allocPtr : Nat
  panicked : Bool
  frames : List ((Nat × Nat) × List Nat)

/-- The three buffer-mutating actions of the reader loop in main.go:
sliding the unread remains to the front, reading a chunk into
`buf[bw:]`, and extracting one candidate as a fresh copy. -/
inductive ReaderOp
  | slide
  | read (chunk : List Nat)
  | extract

/-- One loop action; after a panic the process is dead and no action
runs.  `slide` performs `copy(buf, buf[br:bw]); bw -= br; br = 0`.
`read` appends as much of the chunk as fits into `buf[bw:]`.  `extract`
runs one iteration of the inner loop: find the marker at relative index
`e` in `buf[br:bw]`, then `img := make([]byte, eoj-br)` — panic when
`eoj = e + 2 < br`, else a fresh allocation of `e + 2 - br` bytes —
then `copy(img, buf[br:br+eoj])` fills it with the first `e + 2 - br`
bytes from `buf[br:]`, `br += eoj` advances, and the frame is recorded
as handed to the hub only when it passes the HasPrefix/HasSuffix gate
before `go sendImage(img)`. -/
def stepReader (s : ReaderState) : ReaderOp → ReaderState
  | .slide =>
      if s.panicked then s else
      { s with
        heap := writeMem s.heap 0 (readMem s.heap s.br (s.bw - s.br)),
        br := 0,
        bw := s.bw - s.br }
  | .read chunk =>
      if s.panicked then s else
      let c := chunk.take (bufCap - s.bw)
      { s with heap := writeMem s.heap s.bw c, bw := s.bw + c.length }
  | .extract =>
      if s.panicked then s else
      match findEOJ (readMem s.heap s.br (s.bw - s.br)) with
      | none => s
      | some e =>
          if e + 2 < s.br then { s with panicked := true }
          else
            let len := e + 2 - s.br
            let img := readMem s.heap s.br len
            { heap := writeMem s.heap s.allocPtr img,
              br := s.br + (e + 2),
              bw := s.bw,
              allocPtr := s.allocPtr + len,
              panicked := false,
              frames :=
                if isJPEGCandidate img then s.frames ++ [((s.allocPtr, len), img)]
                else s.frames }

def runReader (s : ReaderState) (ops : List ReaderOp) : ReaderState :=
  ops.foldl stepReader s

/-- `buf` is zeroed by `make`, both cursors start at 0, nothing is
allocated or extracted yet. -/
def initReader : ReaderState :=
  { heap := fun _ => 0, br := 0, bw := 0, allocPtr := bufCap,
    panicked := false, frames := [] }

/-- Reader-state sanity: the cursors stay inside the backing array, all
allocations live above it below the allocation pointer, and every
recorded frame still reads back the bytes captured at its extraction. -/
def goodState (s : ReaderState) : Prop :=
  s.br ≤ s.bw ∧ s.bw ≤ bufCap ∧ bufCap ≤ s.allocPtr ∧
  ∀ fr ∈ s.frames,
    fr.1.1 + fr.1.2 ≤ s.allocPtr ∧ bufCap ≤ fr.1.1 ∧
      readMem s.heap fr.1.1 fr.1.2 = fr.2

instance : ∀ s, Decidable (goodState s) := fun s => by
  unfold goodState
  infer_instance

theorem readMem_length (h : Heap) (base len : Nat) :
    (readMem h base len).length = len := by
  unfold readMem
  simp

theorem readMem_writeMem_disjoint {base len wb : Nat} (h : Heap)
    (data : List Nat)
    (hdisj : base + len ≤ wb ∨ wb + data.length ≤ base) :
    readMem (writeMem h wb data) base len = readMem h base len := by
  unfold readMem writeMem
  apply List.map_congr_left
  intro i hi
  rw [List.mem_range] at hi
  rw [if_neg]
  rcases hdisj with hd | hd
  · intro hcon
    omega
  · intro hcon
    omega

theorem readMem_writeMem_self (h : Heap) (wb : Nat) (data : List Nat) :
    readMem (writeMem h wb data) wb data.length = data := by
  unfold readMem writeMem
  apply List.ext_getElem
  · simp
  · intro i h1 h2
    simp only [List.getElem_map, List.getElem_range]
    rw [if_pos (by simp at h1; omega)]
    rw [Nat.add_sub_cancel_left]
    exact List.getD_eq_getElem data 0 h2

theorem prefix_if_append (c : Prop) [Decidable c]
    (l t : List ((Nat × Nat) × List Nat)) :
    l <+: (if c then l ++ t else l) := by
  split
  · exact List.prefix_append _ _
  · exact List.prefix_refl _

theorem goodState_step {s : ReaderState} (hs : goodState s) (op : ReaderOp) :
    goodState (stepReader s op) ∧ s.frames <+: (stepReader s op).frames := by
  obtain ⟨hbr, hbw, hap, hfr⟩ := hs
  by_cases hp : s.panicked
  · cases op <;> simp only [stepReader, if_pos hp] <;>
      exact ⟨⟨hbr, hbw, hap, hfr⟩, List.prefix_refl _⟩
  · cases op with
    | slide =>
      simp only [stepReader, if_neg hp, goodState]
      refine ⟨⟨Nat.zero_le _, by omega, hap, ?_⟩, List.prefix_refl _⟩
      intro fr hmem
      obtain ⟨hb1, hb2, hb3⟩ := hfr fr hmem
      refine ⟨hb1, hb2, ?_⟩
      rw [readMem_writeMem_disjoint _ _ (Or.inr ?_)]
      · exact hb3
      · rw [readMem_length]
        omega
    | read chunk =>
      have hctake : (chunk.take (bufCap - s.bw)).length ≤ bufCap - s.bw := by
        rw [List.length_take]
        omega
      simp only [stepReader, if_neg hp, goodState]
      refine ⟨⟨by omega, by omega, hap, ?_⟩, List.prefix_refl _⟩
      intro fr hmem
      obtain ⟨hb1, hb2, hb3⟩ := hfr fr hmem
      refine ⟨hb1, hb2, ?_⟩
      rw [readMem_writeMem_disjoint _ _ (Or.inr ?_)]
      · exact hb3
      · omega
    | extract =>
      cases hfind : findEOJ (readMem s.heap s.br (s.bw - s.br)) with
      | none =>
        simp only [stepReader, if_neg hp, hfind]
        exact ⟨⟨hbr, hbw, hap, hfr⟩, List.prefix_refl _⟩
      | some e =>
        simp only [stepReader, if_neg hp, hfind]
        by_cases hblt : e + 2 < s.br
        · rw [if_pos hblt]
          exact ⟨⟨hbr, hbw, hap, hfr⟩, List.prefix_refl _⟩
        · rw [if_neg hblt]
          have hle2 : e + 2 ≤ s.bw - s.br := by
            have := findEOJ_some_le hfind
            rwa [readMem_length] at this
          have himglen :
              (readMem s.heap s.br (e + 2 - s.br)).length = e + 2 - s.br :=
            readMem_length _ _ _
          constructor
          · refine ⟨by show s.br + (e + 2) ≤ s.bw; omega, hbw,
              by show bufCap ≤ s.allocPtr + (e + 2 - s.br); omega, ?_⟩
            intro fr hmem
            have hmem' : fr ∈
                (if isJPEGCandidate (readMem s.heap s.br (e + 2 - s.br)) = true
                then s.frames
                  ++ [((s.allocPtr, e + 2 - s.br),
                        readMem s.heap s.br (e + 2 - s.br))]
                else s.frames) := hmem
            by_cases hc :
                isJPEGCandidate (readMem s.heap s.br (e + 2 - s.br)) = true
            · rw [if_pos hc] at hmem'
              rcases List.mem_append.mp hmem' with hold | hnew
              · obtain ⟨hb1, hb2, hb3⟩ := hfr fr hold
                have hbnd : fr.1.1 + fr.1.2 ≤ s.allocPtr + (e + 2 - s.br) := by
                  omega
                refine ⟨hbnd, hb2, ?_⟩
                rw [readMem_writeMem_disjoint _ _ (Or.inl hb1)]
                exact hb3
              · rw [List.mem_singleton] at hnew
                subst hnew
                refine ⟨le_refl _, hap, ?_⟩
                show readMem (writeMem s.heap s.allocPtr
                      (readMem s.heap s.br (e + 2 - s.br)))
                    s.allocPtr (e + 2 - s.br)
                  = readMem s.heap s.br (e + 2 - s.br)
                have hself := readMem_writeMem_self s.heap s.allocPtr
                  (readMem s.heap s.br (e + 2 - s.br))
                rwa [himglen] at hself
            · rw [if_neg hc] at hmem'
              obtain ⟨hb1, hb2, hb3⟩ := hfr fr hmem'
              have hbnd : fr.1.1 + fr.1.2 ≤ s.allocPtr + (e + 2 - s.br) := by
                omega
              refine ⟨hbnd, hb2, ?_⟩
              rw [readMem_writeMem_disjoint _ _ (Or.inl hb1)]
              exact hb3
          · exact prefix_if_append _ _ _

theorem goodState_run {s : ReaderState} (hs : goodState s)
    (ops : List ReaderOp) :
    goodState (runReader s ops) ∧ s.frames <+: (runReader s ops).frames := by
  induction ops generalizing s with
  | nil => exact ⟨hs, List.prefix_refl _⟩
  | cons op rest ih =>
    obtain ⟨h1, h2⟩ := goodState_step hs op
    obtain ⟨h3, h4⟩ := ih h1
    exact ⟨h3, h2.trans h4⟩

/-- C8: every frame handed to the hub is an independently owned copy of
the buffer bytes it was extracted from — `img := make(...)` plus `copy`
allocates outside the backing array — so whatever later loop actions do
to the reader's working buffer (further reads, compaction/sliding, more
extractions), every previously recorded frame still reads back exactly
the bytes captured at its extraction. -/
theorem frames_stable_under_buffer_mutation {s : ReaderState}
    (hs : goodState s) (ops : List ReaderOp)
    (fr : (Nat × Nat) × List Nat) (hfr : fr ∈ s.frames) :
    readMem (runReader s ops).heap fr.1.1 fr.1.2 = fr.2 := by
  obtain ⟨hgood, hpre⟩ := goodState_run hs ops
  exact (hgood.2.2.2 fr (hpre.subset hfr)).2.2

/-- Witness for C8: extract one frame, then overwrite the buffer with a
further read and a slide; the extracted copy still reads back intact. -/
theorem frames_stable_under_buffer_mutation_witness :
    readMem (runReader
        (runReader initReader [.read [0xff, 0xd8, 0xff, 0xd9], .extract])
        [.read [0xaa, 0xbb], .slide]).heap bufCap 4
      = [0xff, 0xd8, 0xff, 0xd9] :=
  frames_stable_under_buffer_mutation (by decide) [.read [0xaa, 0xbb], .slide]
    ((bufCap, 4), [0xff, 0xd8, 0xff, 0xd9]) (by decide)

end Cam2MJPEG
